import Mathlib

/-!
Verification of the anchor-based bounding-box engine in
`labs/06/bboxes_utils.py`.

Boxes are 4-tuples `(top, left, bottom, right)`.  The geometry and the
assignment algorithm (`bboxes_training`) use only rational arithmetic in the
source (comparisons, max/argmax, additions, divisions), so they are embedded
over `ℚ`; the encoder/decoder (`bboxes_to_rcnn` / `bboxes_from_rcnn`) use
`log`/`exp` and are embedded over `ℝ` ("exact real arithmetic"), with the
`ℚ`-boxes coerced into `ℝ` where the two meet.

Operations of the source that raise a runtime error on some inputs
(`torch.argmax` / `torch.max` over an empty dimension, indexing `[..., 3]`
into a trailing dimension shorter than 4) are modelled with `Option`:
`none` is a raised error.
-/

/-- A bounding box `(top, left, bottom, right)`, the size-4 last axis of the
source's tensors (`TOP = 0`, `LEFT = 1`, `BOTTOM = 2`, `RIGHT = 3`). -/
structure Box (α : Type) where
  top : α
  left : α
  bottom : α
  right : α
deriving DecidableEq, Repr

instance {α : Type} [Inhabited α] : Inhabited (Box α) :=
  ⟨⟨default, default, default, default⟩⟩

/-- The 4-vector `(dy, dx, dh, dw)` of R-CNN regression offsets. -/
structure Rcnn where
  dy : ℝ
  dx : ℝ
  dh : ℝ
  dw : ℝ

instance : Inhabited Rcnn := ⟨⟨0, 0, 0, 0⟩⟩

/-- `torch.relu` on a scalar. -/
def relu (x : ℚ) : ℚ := max x 0

/-- `bboxes_area`: `relu(bottom - top) * relu(right - left)`. -/
def bboxes_area (b : Box ℚ) : ℚ :=
  relu (b.bottom - b.top) * relu (b.right - b.left)

/-- The intersection box stacked inside `bboxes_iou`:
coordinate-wise `(max top, max left, min bottom, min right)`. -/
def interBox (x y : Box ℚ) : Box ℚ :=
  ⟨max x.top y.top, max x.left y.left, min x.bottom y.bottom, min x.right y.right⟩

/-- `bboxes_iou`: `intersection_area / (area x + area y - intersection_area)`.
(In `ℚ` a zero denominator makes the quotient `0`, matching the spec's
"treat as IoU 0" convention for the degenerate 0/0 case.) -/
def bboxes_iou (x y : Box ℚ) : ℚ :=
  bboxes_area (interBox x y) /
    (bboxes_area x + bboxes_area y - bboxes_area (interBox x y))

/-- Coerce a rational box into the real field used by the encoder/decoder. -/
noncomputable def boxToReal (b : Box ℚ) : Box ℝ :=
  ⟨(b.top : ℝ), (b.left : ℝ), (b.bottom : ℝ), (b.right : ℝ)⟩

/-- `bboxes_to_rcnn`: encode `bbox` relative to `anchor` as
`(dy, dx, dh, dw)` (center offsets normalised by anchor size, log size
ratios). -/
noncomputable def bboxes_to_rcnn (anchor bbox : Box ℝ) : Rcnn :=
  let anchor_height := anchor.bottom - anchor.top
  let anchor_width := anchor.right - anchor.left
  let anchor_center_y := (anchor.top + anchor.bottom) / 2
  let anchor_center_x := (anchor.left + anchor.right) / 2
  let bbox_height := bbox.bottom - bbox.top
  let bbox_width := bbox.right - bbox.left
  let bbox_center_y := (bbox.top + bbox.bottom) / 2
  let bbox_center_x := (bbox.left + bbox.right) / 2
  ⟨(bbox_center_y - anchor_center_y) / anchor_height,
   (bbox_center_x - anchor_center_x) / anchor_width,
   Real.log (bbox_height / anchor_height),
   Real.log (bbox_width / anchor_width)⟩

/-- `bboxes_from_rcnn`: decode offsets `(dy, dx, dh, dw)` relative to
`anchor` back into an absolute box. -/
noncomputable def bboxes_from_rcnn (anchor : Box ℝ) (rcnn : Rcnn) : Box ℝ :=
  let anchor_height := anchor.bottom - anchor.top
  let anchor_width := anchor.right - anchor.left
  let anchor_center_y := (anchor.top + anchor.bottom) / 2
  let anchor_center_x := (anchor.left + anchor.right) / 2
  let bbox_center_y := rcnn.dy * anchor_height + anchor_center_y
  let bbox_center_x := rcnn.dx * anchor_width + anchor_center_x
  let bbox_height := Real.exp rcnn.dh * anchor_height
  let bbox_width := Real.exp rcnn.dw * anchor_width
  ⟨bbox_center_y - bbox_height / 2,
   bbox_center_x - bbox_width / 2,
   bbox_center_y + bbox_height / 2,
   bbox_center_x + bbox_width / 2⟩

/-- C1: for every anchor and box of strictly positive height and width,
decoding the encoding returns the original box exactly (real arithmetic). -/
theorem bboxes_from_to_rcnn_roundtrip (a b : Box ℝ)
    (hah : 0 < a.bottom - a.top) (haw : 0 < a.right - a.left)
    (hbh : 0 < b.bottom - b.top) (hbw : 0 < b.right - b.left) :
    bboxes_from_rcnn a (bboxes_to_rcnn a b) = b := by
  obtain ⟨p, q, r, s⟩ := a
  obtain ⟨t, u, v, w⟩ := b
  simp only at hah haw hbh hbw
  have hr : r - p ≠ 0 := ne_of_gt hah
  have hs : s - q ≠ 0 := ne_of_gt haw
  simp only [bboxes_from_rcnn, bboxes_to_rcnn]
  rw [Real.exp_log (div_pos hbh hah), Real.exp_log (div_pos hbw haw)]
  simp only [Box.mk.injEq]
  refine ⟨?_, ?_, ?_, ?_⟩ <;> field_simp <;> ring

/-- C1 witness at the anchor `(0,0,2,2)` and the box `(1,1,3,4)`. -/
theorem bboxes_from_to_rcnn_roundtrip_witness :
    (0 < (2 : ℝ) - 0 ∧ 0 < (2 : ℝ) - 0 ∧ 0 < (3 : ℝ) - 1 ∧ 0 < (4 : ℝ) - 1) ∧
    bboxes_from_rcnn ⟨0, 0, 2, 2⟩ (bboxes_to_rcnn ⟨0, 0, 2, 2⟩ ⟨1, 1, 3, 4⟩) =
      ⟨1, 1, 3, 4⟩ :=
  ⟨⟨by norm_num, by norm_num, by norm_num, by norm_num⟩,
   bboxes_from_to_rcnn_roundtrip ⟨0, 0, 2, 2⟩ ⟨1, 1, 3, 4⟩
     (by norm_num) (by norm_num) (by norm_num) (by norm_num)⟩

/-- C10: for every anchor of strictly positive height and width and every
offset vector, the decoded box is well formed: `top ≤ bottom` and
`left ≤ right`. -/
theorem bboxes_from_rcnn_wellformed (a : Box ℝ) (r : Rcnn)
    (hah : 0 < a.bottom - a.top) (haw : 0 < a.right - a.left) :
    (bboxes_from_rcnn a r).top ≤ (bboxes_from_rcnn a r).bottom ∧
      (bboxes_from_rcnn a r).left ≤ (bboxes_from_rcnn a r).right := by
  have h1 : 0 < Real.exp r.dh * (a.bottom - a.top) :=
    mul_pos (Real.exp_pos _) hah
  have h2 : 0 < Real.exp r.dw * (a.right - a.left) :=
    mul_pos (Real.exp_pos _) haw
  simp only [bboxes_from_rcnn]
  constructor <;> nlinarith

/-- C10 witness at the anchor `(0,0,1,1)` and the offsets `(5,-7,2,-3)`. -/
theorem bboxes_from_rcnn_wellformed_witness :
    (0 < (1 : ℝ) - 0 ∧ 0 < (1 : ℝ) - 0) ∧
    ((bboxes_from_rcnn ⟨0, 0, 1, 1⟩ ⟨5, -7, 2, -3⟩).top ≤
        (bboxes_from_rcnn ⟨0, 0, 1, 1⟩ ⟨5, -7, 2, -3⟩).bottom ∧
      (bboxes_from_rcnn ⟨0, 0, 1, 1⟩ ⟨5, -7, 2, -3⟩).left ≤
        (bboxes_from_rcnn ⟨0, 0, 1, 1⟩ ⟨5, -7, 2, -3⟩).right) :=
  ⟨⟨by norm_num, by norm_num⟩,
   bboxes_from_rcnn_wellformed ⟨0, 0, 1, 1⟩ ⟨5, -7, 2, -3⟩
     (by norm_num) (by norm_num)⟩

/-- The maximum of a list of rationals (the reduction behind `torch.max` /
`torch.argmax` over a non-empty dimension; the `[]` case is never reached by
the model, which raises (`none`) on empty reductions instead). -/
def maxList : List ℚ → ℚ
  | [] => 0
  | [x] => x
  | x :: y :: ys => max x (maxList (y :: ys))

/-- Index of the first occurrence of the maximum, the tie-break of
`torch.argmax` / `torch.max(·, dim=0)`: the smallest index on ties. -/
def argmaxList : List ℚ → ℕ
  | [] => 0
  | [_] => 0
  | x :: y :: ys => if maxList (y :: ys) ≤ x then 0 else argmaxList (y :: ys) + 1

theorem getD_le_maxList (l : List ℚ) (i : ℕ) (hi : i < l.length) :
    l.getD i 0 ≤ maxList l := by
  induction l generalizing i with
  | nil => simp at hi
  | cons x xs ih =>
    cases xs with
    | nil =>
      have : i = 0 := by simpa using Nat.lt_one_iff.mp (by simpa using hi)
      subst this
      simp [maxList]
    | cons y ys =>
      cases i with
      | zero => simp [maxList]
      | succ j =>
        have hj : j < (y :: ys).length := by simpa using hi
        calc (x :: y :: ys).getD (j + 1) 0 = (y :: ys).getD j 0 := by simp [List.getD]
          _ ≤ maxList (y :: ys) := ih j hj
          _ ≤ maxList (x :: y :: ys) := by simp [maxList]

theorem argmaxList_lt_length (l : List ℚ) (hl : l ≠ []) :
    argmaxList l < l.length := by
  induction l with
  | nil => exact absurd rfl hl
  | cons x xs ih =>
    cases xs with
    | nil => simp [argmaxList]
    | cons y ys =>
      by_cases h : maxList (y :: ys) ≤ x
      · simp [argmaxList, h]
      · have := ih (by simp)
        simp only [argmaxList, if_neg h]
        simpa using Nat.succ_lt_succ this

theorem getD_argmaxList (l : List ℚ) (hl : l ≠ []) :
    l.getD (argmaxList l) 0 = maxList l := by
  induction l with
  | nil => exact absurd rfl hl
  | cons x xs ih =>
    cases xs with
    | nil => simp [argmaxList, maxList]
    | cons y ys =>
      by_cases h : maxList (y :: ys) ≤ x
      · simp [argmaxList, maxList, if_pos h, max_eq_left h]
      · have hx : x ≤ maxList (y :: ys) := le_of_lt (lt_of_not_le h)
        simp only [argmaxList, if_neg h]
        calc (x :: y :: ys).getD (argmaxList (y :: ys) + 1) 0
            = (y :: ys).getD (argmaxList (y :: ys)) 0 := by simp [List.getD]
          _ = maxList (y :: ys) := ih (by simp)
          _ = maxList (x :: y :: ys) := by simp [maxList, max_eq_right hx]

theorem getD_lt_of_lt_argmaxList (l : List ℚ) (i : ℕ) (hi : i < argmaxList l) :
    l.getD i 0 < maxList l := by
  induction l generalizing i with
  | nil => simp [argmaxList] at hi
  | cons x xs ih =>
    cases xs with
    | nil => simp [argmaxList] at hi
    | cons y ys =>
      by_cases h : maxList (y :: ys) ≤ x
      · simp [argmaxList, if_pos h] at hi
      · have hx : x < maxList (y :: ys) := lt_of_not_le h
        simp only [argmaxList, if_neg h] at hi
        cases i with
        | zero =>
          simpa [maxList, max_eq_right (le_of_lt hx)] using hx
        | succ j =>
          have hj : j < argmaxList (y :: ys) := by omega
          calc (x :: y :: ys).getD (j + 1) 0 = (y :: ys).getD j 0 := by simp [List.getD]
            _ < maxList (y :: ys) := ih j hj
            _ = maxList (x :: y :: ys) := by simp [maxList, max_eq_right (le_of_lt hx)]

theorem getD_set_self {α : Type} (l : List α) (i : ℕ) (v d : α)
    (h : i < l.length) : (l.set i v).getD i d = v := by
  induction l generalizing i with
  | nil => simp at h
  | cons x xs ih =>
    cases i with
    | zero => rfl
    | succ j => simpa [List.getD] using ih j (by simpa using h)

theorem getD_set_ne {α : Type} (l : List α) (i j : ℕ) (v d : α)
    (h : j ≠ i) : (l.set i v).getD j d = l.getD j d := by
  induction l generalizing i j with
  | nil => simp
  | cons x xs ih =>
    cases i with
    | zero =>
      cases j with
      | zero => exact absurd rfl h
      | succ k => simp [List.getD]
    | succ i' =>
      cases j with
      | zero => rfl
      | succ k => simpa [List.getD] using ih i' k (by omega)

/-- The anchor index chosen for gold box `g` in Pass 1:
`torch.argmax(iou_matrix[:, g])`, smallest index on ties. -/
def bestAnchorIdx (anchors : List (Box ℚ)) (g : Box ℚ) : ℕ :=
  argmaxList (anchors.map (fun a => bboxes_iou a g))

/-- The Pass 1 loop body of `bboxes_training`, iterating over the gold boxes
`gs` with running gold index `gi` and assignment state `assigned`
(`none` is the sentinel `-1`).  `torch.argmax` over an empty anchor
dimension raises, hence the `none` result in that case. -/
def pass1Go (anchors : List (Box ℚ)) :
    List (Box ℚ) → ℕ → List (Option ℕ) → Option (List (Option ℕ))
  | [], _, assigned => some assigned
  | g :: gs, gi, assigned =>
    if anchors.isEmpty then none
    else
      pass1Go anchors gs (gi + 1)
        (if assigned.getD (bestAnchorIdx anchors g) none = none then
          assigned.set (bestAnchorIdx anchors g) (some gi)
        else assigned)

/-- Pass 1 of `bboxes_training`: starts from the all-unassigned state. -/
def pass1 (anchors gold_bboxes : List (Box ℚ)) : Option (List (Option ℕ)) :=
  pass1Go anchors gold_bboxes 0 (List.replicate anchors.length none)

/-- The (relative) index of the first gold box in `gs` whose best anchor is
`b`; this is exactly the gold box that Pass 1 leaves in slot `b`. -/
def firstGoldFor (anchors : List (Box ℚ)) (b : ℕ) : List (Box ℚ) → Option ℕ
  | [] => none
  | g :: gs =>
    if bestAnchorIdx anchors g = b then some 0
    else (firstGoldFor anchors b gs).map (· + 1)

theorem bestAnchorIdx_lt (anchors : List (Box ℚ)) (g : Box ℚ)
    (hA : anchors ≠ []) : bestAnchorIdx anchors g < anchors.length := by
  have := argmaxList_lt_length (anchors.map (fun a => bboxes_iou a g))
    (by simpa using hA)
  simpa [bestAnchorIdx] using this

theorem pass1Go_cons_step (anchors : List (Box ℚ))
    (hne : anchors.isEmpty = false) (g : Box ℚ) (gs : List (Box ℚ)) (gi : ℕ)
    (assigned : List (Option ℕ)) :
    pass1Go anchors (g :: gs) gi assigned =
      pass1Go anchors gs (gi + 1)
        (if assigned.getD (bestAnchorIdx anchors g) none = none then
          assigned.set (bestAnchorIdx anchors g) (some gi)
        else assigned) := by
  have hc : ¬(anchors.isEmpty = true) := by simp [hne]
  simp only [pass1Go, if_neg hc]

theorem firstGoldFor_cons_ne (anchors : List (Box ℚ)) (g : Box ℚ)
    (gs : List (Box ℚ)) (b : ℕ) (h : bestAnchorIdx anchors g ≠ b) (gi : ℕ) :
    (firstGoldFor anchors b (g :: gs)).map (fun k => gi + k) =
      (firstGoldFor anchors b gs).map (fun k => gi + 1 + k) := by
  simp only [firstGoldFor, if_neg h, Option.map_map]
  apply Option.map_congr
  intro k _
  simp only [Function.comp_apply]
  omega

theorem pass1Go_getD (anchors : List (Box ℚ)) (hA : anchors ≠ [])
    (gs : List (Box ℚ)) :
    ∀ (gi : ℕ) (assigned : List (Option ℕ)),
      assigned.length = anchors.length →
      ∃ R, pass1Go anchors gs gi assigned = some R ∧
        R.length = anchors.length ∧
        ∀ b, R.getD b none =
          match assigned.getD b none with
          | some g => some g
          | none => (firstGoldFor anchors b gs).map (fun k => gi + k) := by
  induction gs with
  | nil =>
    intro gi assigned hlen
    refine ⟨assigned, rfl, hlen, ?_⟩
    intro b
    cases h : assigned.getD b none with
    | some g => simp
    | none => simp [firstGoldFor]
  | cons g gs ih =>
    intro gi assigned hlen
    have hne : anchors.isEmpty = false := by
      simpa [List.isEmpty_iff] using hA
    have hblt : bestAnchorIdx anchors g < assigned.length := by
      rw [hlen]; exact bestAnchorIdx_lt anchors g hA
    by_cases h0 : assigned.getD (bestAnchorIdx anchors g) none = none
    · obtain ⟨R, hR, hRlen, hget⟩ :=
        ih (gi + 1) (assigned.set (bestAnchorIdx anchors g) (some gi))
          (by simpa using hlen)
      refine ⟨R, ?_, hRlen, ?_⟩
      · rw [pass1Go_cons_step anchors hne g gs gi assigned, if_pos h0]
        exact hR
      · intro b
        by_cases hb : b = bestAnchorIdx anchors g
        · have h1 := hget b
          rw [hb] at h1 ⊢
          rw [getD_set_self assigned (bestAnchorIdx anchors g) (some gi) none
            hblt] at h1
          rw [h1, h0]
          simp [firstGoldFor]
        · have h1 := hget b
          rw [getD_set_ne assigned (bestAnchorIdx anchors g) b (some gi) none hb]
            at h1
          rw [h1]
          cases hx : assigned.getD b none with
          | some g0 => simp
          | none =>
            exact (firstGoldFor_cons_ne anchors g gs b
              (fun hc => hb hc.symm) gi).symm
    · obtain ⟨R, hR, hRlen, hget⟩ := ih (gi + 1) assigned hlen
      refine ⟨R, ?_, hRlen, ?_⟩
      · rw [pass1Go_cons_step anchors hne g gs gi assigned, if_neg h0]
        exact hR
      · intro b
        rw [hget b]
        by_cases hb : b = bestAnchorIdx anchors g
        · rw [hb]
          obtain ⟨g0, hg0⟩ := Option.ne_none_iff_exists'.mp h0
          rw [hg0]
        · cases hx : assigned.getD b none with
          | some g0 => simp
          | none =>
            exact (firstGoldFor_cons_ne anchors g gs b
              (fun hc => hb hc.symm) gi).symm

theorem pass1_getD (anchors gold_bboxes : List (Box ℚ)) (hA : anchors ≠ []) :
    ∃ R, pass1 anchors gold_bboxes = some R ∧
      R.length = anchors.length ∧
      ∀ b, R.getD b none = firstGoldFor anchors b gold_bboxes := by
  obtain ⟨R, hR, hRlen, hget⟩ :=
    pass1Go_getD anchors hA gold_bboxes 0 (List.replicate anchors.length none)
      (by simp)
  refine ⟨R, hR, hRlen, ?_⟩
  intro b
  have := hget b
  have hrep : (List.replicate anchors.length (none : Option ℕ)).getD b none
      = none := by
    by_cases hb : b < anchors.length
    · rw [List.getD_eq_getElem _ _ (by simpa using hb)]
      simp
    · rw [List.getD_eq_default _ _ (by simpa using Nat.le_of_not_lt hb)]
  rw [hrep] at this
  simpa [Option.map_id] using this

theorem firstGoldFor_eq_some (anchors : List (Box ℚ)) (b : ℕ)
    (gs : List (Box ℚ)) :
    ∀ g : ℕ, firstGoldFor anchors b gs = some g ↔
      g < gs.length ∧ bestAnchorIdx anchors (gs.getD g default) = b ∧
        ∀ j < g, bestAnchorIdx anchors (gs.getD j default) ≠ b := by
  induction gs with
  | nil => intro g; simp [firstGoldFor]
  | cons g0 gs ih =>
    intro g
    by_cases h : bestAnchorIdx anchors g0 = b
    · simp only [firstGoldFor, if_pos h]
      cases g with
      | zero =>
        constructor
        · intro _
          refine ⟨by simp, by simpa [List.getD] using h, ?_⟩
          intro j hj
          exact absurd hj (Nat.not_lt_zero j)
        · intro _
          rfl
      | succ k =>
        constructor
        · intro hc; simp at hc
        · rintro ⟨-, -, hall⟩
          exact absurd h (hall 0 (Nat.succ_pos k))
    · simp only [firstGoldFor, if_neg h]
      cases g with
      | zero =>
        constructor
        · intro hc
          rcases Option.map_eq_some'.mp hc with ⟨k, -, hk⟩
          simp at hk
        · rintro ⟨-, hb, -⟩
          exact absurd (by simpa [List.getD] using hb) h
      | succ k =>
        constructor
        · intro hc
          rcases Option.map_eq_some'.mp hc with ⟨k0, hk0, hkeq⟩
          have hkk : k0 = k := by omega
          subst hkk
          obtain ⟨hlt, hbest, hall⟩ := (ih k0).mp hk0
          refine ⟨by simpa using Nat.succ_lt_succ hlt, by simpa [List.getD]
            using hbest, ?_⟩
          intro j hj
          cases j with
          | zero => simpa [List.getD] using h
          | succ j0 =>
            have := hall j0 (by omega)
            simpa [List.getD] using this
        · rintro ⟨hlt, hbest, hall⟩
          have hk : firstGoldFor anchors b gs = some k := by
            refine (ih k).mpr ⟨by simpa using hlt, by simpa [List.getD]
              using hbest, ?_⟩
            intro j hj
            have := hall (j + 1) (by omega)
            simpa [List.getD] using this
          rw [hk]
          rfl

/-- The Pass 2 loop body of `bboxes_training`: for each anchor (paired with
its Pass 1 state), a free anchor takes the gold index maximising
`iou_matrix[a, :]` when that maximum is `>= iou_threshold`.  `torch.max`
over an empty gold dimension raises, hence `none` in that case. -/
def pass2Go (gold_bboxes : List (Box ℚ)) (iou_threshold : ℚ) :
    List (Box ℚ) → List (Option ℕ) → Option (List (Option ℕ))
  | [], _ => some []
  | _ :: _, [] => some []
  | a :: as, s :: ss =>
    match s with
    | some g => (pass2Go gold_bboxes iou_threshold as ss).map
        (fun r => some g :: r)
    | none =>
      if gold_bboxes.isEmpty then none
      else
        (pass2Go gold_bboxes iou_threshold as ss).map (fun r =>
          (if iou_threshold ≤ maxList (gold_bboxes.map (fun gb => bboxes_iou a gb))
          then some (argmaxList (gold_bboxes.map (fun gb => bboxes_iou a gb)))
          else none) :: r)

/-- The assignment computed by `bboxes_training` (the `assigned_gold`
tensor after both passes). -/
def assignedGold (anchors gold_bboxes : List (Box ℚ)) (iou_threshold : ℚ) :
    Option (List (Option ℕ)) :=
  (pass1 anchors gold_bboxes).bind
    (pass2Go gold_bboxes iou_threshold anchors)

/-- What Pass 2 leaves at a free anchor `a`. -/
def pass2Result (gold_bboxes : List (Box ℚ)) (iou_threshold : ℚ)
    (a : Box ℚ) : Option ℕ :=
  if iou_threshold ≤ maxList (gold_bboxes.map (fun gb => bboxes_iou a gb))
  then some (argmaxList (gold_bboxes.map (fun gb => bboxes_iou a gb)))
  else none

theorem pass2Go_getD (gold_bboxes : List (Box ℚ)) (iou_threshold : ℚ)
    (hG : gold_bboxes ≠ []) :
    ∀ (as : List (Box ℚ)) (ss : List (Option ℕ)), ss.length = as.length →
      ∃ R, pass2Go gold_bboxes iou_threshold as ss = some R ∧
        R.length = as.length ∧
        ∀ i < as.length, R.getD i none =
          match ss.getD i none with
          | some g => some g
          | none => pass2Result gold_bboxes iou_threshold (as.getD i default) := by
  have hne : gold_bboxes.isEmpty = false := by
    simpa [List.isEmpty_iff] using hG
  have hc : ¬(gold_bboxes.isEmpty = true) := by simp [hne]
  intro as
  induction as with
  | nil =>
    intro ss hlen
    exact ⟨[], rfl, rfl, by intro i hi; simp at hi⟩
  | cons a as ih =>
    intro ss hlen
    cases ss with
    | nil => simp at hlen
    | cons s ss =>
      obtain ⟨R, hR, hRlen, hget⟩ := ih ss (by simpa using hlen)
      cases s with
      | some g =>
        refine ⟨some g :: R, ?_, by simpa using hRlen, ?_⟩
        · simp only [pass2Go, hR, Option.map_some']
        · intro i hi
          cases i with
          | zero => rfl
          | succ j =>
            have hj : j < as.length := by simpa using hi
            simpa [List.getD] using hget j hj
      | none =>
        refine ⟨pass2Result gold_bboxes iou_threshold a :: R, ?_,
          by simpa using hRlen, ?_⟩
        · simp only [pass2Go, if_neg hc, hR, Option.map_some', pass2Result]
        · intro i hi
          cases i with
          | zero => rfl
          | succ j =>
            have hj : j < as.length := by simpa using hi
            simpa [List.getD] using hget j hj

theorem relu_nonneg (x : ℚ) : 0 ≤ relu x := le_max_right x 0

theorem relu_mono {x y : ℚ} (h : x ≤ y) : relu x ≤ relu y :=
  max_le_max h le_rfl

theorem bboxes_area_nonneg (b : Box ℚ) : 0 ≤ bboxes_area b :=
  mul_nonneg (relu_nonneg _) (relu_nonneg _)

theorem inter_area_le_left (x y : Box ℚ) :
    bboxes_area (interBox x y) ≤ bboxes_area x := by
  have h1 : relu (min x.bottom y.bottom - max x.top y.top) ≤
      relu (x.bottom - x.top) :=
    relu_mono (sub_le_sub (min_le_left _ _) (le_max_left _ _))
  have h2 : relu (min x.right y.right - max x.left y.left) ≤
      relu (x.right - x.left) :=
    relu_mono (sub_le_sub (min_le_left _ _) (le_max_left _ _))
  exact mul_le_mul h1 h2 (relu_nonneg _) (relu_nonneg _)

theorem inter_area_le_right (x y : Box ℚ) :
    bboxes_area (interBox x y) ≤ bboxes_area y := by
  have h1 : relu (min x.bottom y.bottom - max x.top y.top) ≤
      relu (y.bottom - y.top) :=
    relu_mono (sub_le_sub (min_le_right _ _) (le_max_right _ _))
  have h2 : relu (min x.right y.right - max x.left y.left) ≤
      relu (y.right - y.left) :=
    relu_mono (sub_le_sub (min_le_right _ _) (le_max_right _ _))
  exact mul_le_mul h1 h2 (relu_nonneg _) (relu_nonneg _)

theorem bboxes_iou_nonneg (x y : Box ℚ) : 0 ≤ bboxes_iou x y := by
  apply div_nonneg (bboxes_area_nonneg _)
  have h1 := inter_area_le_right x y
  have h2 := bboxes_area_nonneg x
  linarith

/-- C9: for well-formed boxes of strictly positive area, the IoU denominator
is strictly positive and `0 ≤ iou ≤ 1`. -/
theorem bboxes_iou_bounds (x y : Box ℚ)
    (hx1 : x.top ≤ x.bottom) (hx2 : x.left ≤ x.right)
    (hy1 : y.top ≤ y.bottom) (hy2 : y.left ≤ y.right)
    (hax : 0 < bboxes_area x) (hay : 0 < bboxes_area y) :
    0 < bboxes_area x + bboxes_area y - bboxes_area (interBox x y) ∧
      0 ≤ bboxes_iou x y ∧ bboxes_iou x y ≤ 1 := by
  have h1 := inter_area_le_left x y
  have h2 := inter_area_le_right x y
  have hi := bboxes_area_nonneg (interBox x y)
  have hd : 0 < bboxes_area x + bboxes_area y - bboxes_area (interBox x y) := by
    linarith
  refine ⟨hd, bboxes_iou_nonneg x y, ?_⟩
  rw [bboxes_iou, div_le_one hd]
  linarith

/-- C9 witness at the boxes `(0,0,2,2)` and `(1,1,3,3)`. -/
theorem bboxes_iou_bounds_witness :
    ((0 : ℚ) ≤ 2 ∧ (0 : ℚ) ≤ 2 ∧ (1 : ℚ) ≤ 3 ∧ (1 : ℚ) ≤ 3 ∧
      0 < bboxes_area ⟨0, 0, 2, 2⟩ ∧ 0 < bboxes_area ⟨1, 1, 3, 3⟩) ∧
    (0 < bboxes_area ⟨0, 0, 2, 2⟩ + bboxes_area ⟨1, 1, 3, 3⟩ -
        bboxes_area (interBox ⟨0, 0, 2, 2⟩ ⟨1, 1, 3, 3⟩) ∧
      0 ≤ bboxes_iou ⟨0, 0, 2, 2⟩ ⟨1, 1, 3, 3⟩ ∧
      bboxes_iou ⟨0, 0, 2, 2⟩ ⟨1, 1, 3, 3⟩ ≤ 1) :=
  ⟨⟨by norm_num, by norm_num, by norm_num, by norm_num,
    by norm_num [bboxes_area, relu, max_def],
    by norm_num [bboxes_area, relu, max_def]⟩,
   bboxes_iou_bounds ⟨0, 0, 2, 2⟩ ⟨1, 1, 3, 3⟩
     (by norm_num) (by norm_num) (by norm_num) (by norm_num)
     (by norm_num [bboxes_area, relu, max_def])
     (by norm_num [bboxes_area, relu, max_def])⟩

/-- The full `bboxes_training`: run the two assignment passes, then
materialise per-anchor classes (`0` background, `1 + gold_class` otherwise)
and per-anchor regression targets (`bboxes_to_rcnn` against the assigned
gold box, all-zero for background anchors). -/
noncomputable def bboxes_training (anchors : List (Box ℚ))
    (gold_classes : List ℕ) (gold_bboxes : List (Box ℚ))
    (iou_threshold : ℚ) : Option (List ℕ × List Rcnn) :=
  (assignedGold anchors gold_bboxes iou_threshold).map (fun assigned =>
    ((anchors.zip assigned).map (fun p =>
        match p.2 with
        | some g => 1 + gold_classes.getD g 0
        | none => 0),
      (anchors.zip assigned).map (fun p =>
        match p.2 with
        | some g =>
          bboxes_to_rcnn (boxToReal p.1) (boxToReal (gold_bboxes.getD g default))
        | none => ⟨0, 0, 0, 0⟩)))

theorem assignedGold_empty_gold (anchors : List (Box ℚ)) (t : ℚ)
    (hA : anchors ≠ []) : assignedGold anchors [] t = none := by
  rcases List.exists_cons_of_ne_nil hA with ⟨a, as, rfl⟩
  simp [assignedGold, pass1, pass1Go, List.replicate_succ, pass2Go]

theorem assignedGold_length (anchors gold_bboxes : List (Box ℚ)) (t : ℚ)
    (assigned : List (Option ℕ))
    (h : assignedGold anchors gold_bboxes t = some assigned) :
    assigned.length = anchors.length := by
  by_cases hA : anchors = []
  · subst hA
    cases gold_bboxes with
    | nil =>
      have h0 : assignedGold ([] : List (Box ℚ)) [] t = some [] := rfl
      rw [h0] at h
      obtain rfl : ([] : List (Option ℕ)) = assigned := by simpa using h
      rfl
    | cons g gs =>
      have h0 : pass1 ([] : List (Box ℚ)) (g :: gs) = none := rfl
      simp [assignedGold, h0] at h
  · by_cases hG : gold_bboxes = []
    · subst hG
      rw [assignedGold_empty_gold anchors t hA] at h
      simp at h
    · obtain ⟨asg1, hp1, hlen1, -⟩ := pass1_getD anchors gold_bboxes hA
      obtain ⟨R, hR, hRlen, -⟩ :=
        pass2Go_getD gold_bboxes t hG anchors asg1 hlen1
      simp only [assignedGold, hp1, Option.some_bind, hR,
        Option.some_inj] at h
      rw [← h]
      exact hRlen

/-- C2: Pass 1 of `bboxes_training`: for each gold index `g`, the chosen
anchor `bestAnchorIdx` is in range, carries the maximum IoU of the column
`iou_matrix[:, g]` (every strictly smaller index has strictly smaller IoU,
i.e. smallest index on ties), and is assigned to `g` if and only if no
earlier gold object chose the same anchor (earlier gold wins a contested
anchor). -/
theorem bboxes_training_pass1_spec (anchors gold_bboxes : List (Box ℚ))
    (g : ℕ) (hA : anchors ≠ []) (hg : g < gold_bboxes.length) :
    ∃ assigned, pass1 anchors gold_bboxes = some assigned ∧
      bestAnchorIdx anchors (gold_bboxes.getD g default) < anchors.length ∧
      (anchors.map (fun a => bboxes_iou a (gold_bboxes.getD g default))).getD
          (bestAnchorIdx anchors (gold_bboxes.getD g default)) 0 =
        maxList (anchors.map (fun a => bboxes_iou a (gold_bboxes.getD g default))) ∧
      (∀ i < bestAnchorIdx anchors (gold_bboxes.getD g default),
        (anchors.map (fun a => bboxes_iou a (gold_bboxes.getD g default))).getD i 0 <
          maxList (anchors.map (fun a => bboxes_iou a (gold_bboxes.getD g default)))) ∧
      (assigned.getD (bestAnchorIdx anchors (gold_bboxes.getD g default)) none
          = some g ↔
        ∀ j < g, bestAnchorIdx anchors (gold_bboxes.getD j default) ≠
          bestAnchorIdx anchors (gold_bboxes.getD g default)) := by
  obtain ⟨R, hR, hRlen, hget⟩ := pass1_getD anchors gold_bboxes hA
  have hrow : anchors.map (fun a => bboxes_iou a (gold_bboxes.getD g default))
      ≠ [] := by
    simpa using hA
  refine ⟨R, hR, bestAnchorIdx_lt anchors _ hA, getD_argmaxList _ hrow,
    fun i hi => getD_lt_of_lt_argmaxList _ i hi, ?_⟩
  rw [hget]
  constructor
  · intro h
    obtain ⟨-, -, hall⟩ := (firstGoldFor_eq_some anchors _ gold_bboxes g).mp h
    exact hall
  · intro hall
    exact (firstGoldFor_eq_some anchors _ gold_bboxes g).mpr ⟨hg, rfl, hall⟩

/-- C2 witness at two anchors and one gold box. -/
theorem bboxes_training_pass1_spec_witness :
    (([⟨0, 0, 10, 10⟩, ⟨10, 10, 20, 20⟩] : List (Box ℚ)) ≠ [] ∧
      0 < ([⟨0, 0, 10, 10⟩] : List (Box ℚ)).length) ∧
    (∃ assigned,
      pass1 [⟨0, 0, 10, 10⟩, ⟨10, 10, 20, 20⟩] [⟨0, 0, 10, 10⟩] = some assigned ∧
      bestAnchorIdx [⟨0, 0, 10, 10⟩, ⟨10, 10, 20, 20⟩]
          (([⟨0, 0, 10, 10⟩] : List (Box ℚ)).getD 0 default) <
        ([⟨0, 0, 10, 10⟩, ⟨10, 10, 20, 20⟩] : List (Box ℚ)).length ∧
      (([⟨0, 0, 10, 10⟩, ⟨10, 10, 20, 20⟩] : List (Box ℚ)).map
          (fun a => bboxes_iou a (([⟨0, 0, 10, 10⟩] : List (Box ℚ)).getD 0 default))).getD
          (bestAnchorIdx [⟨0, 0, 10, 10⟩, ⟨10, 10, 20, 20⟩]
            (([⟨0, 0, 10, 10⟩] : List (Box ℚ)).getD 0 default)) 0 =
        maxList (([⟨0, 0, 10, 10⟩, ⟨10, 10, 20, 20⟩] : List (Box ℚ)).map
          (fun a => bboxes_iou a (([⟨0, 0, 10, 10⟩] : List (Box ℚ)).getD 0 default))) ∧
      (∀ i < bestAnchorIdx [⟨0, 0, 10, 10⟩, ⟨10, 10, 20, 20⟩]
          (([⟨0, 0, 10, 10⟩] : List (Box ℚ)).getD 0 default),
        (([⟨0, 0, 10, 10⟩, ⟨10, 10, 20, 20⟩] : List (Box ℚ)).map
          (fun a => bboxes_iou a (([⟨0, 0, 10, 10⟩] : List (Box ℚ)).getD 0 default))).getD i 0 <
          maxList (([⟨0, 0, 10, 10⟩, ⟨10, 10, 20, 20⟩] : List (Box ℚ)).map
            (fun a => bboxes_iou a (([⟨0, 0, 10, 10⟩] : List (Box ℚ)).getD 0 default)))) ∧
      (assigned.getD (bestAnchorIdx [⟨0, 0, 10, 10⟩, ⟨10, 10, 20, 20⟩]
          (([⟨0, 0, 10, 10⟩] : List (Box ℚ)).getD 0 default)) none = some 0 ↔
        ∀ j < 0, bestAnchorIdx [⟨0, 0, 10, 10⟩, ⟨10, 10, 20, 20⟩]
            (([⟨0, 0, 10, 10⟩] : List (Box ℚ)).getD j default) ≠
          bestAnchorIdx [⟨0, 0, 10, 10⟩, ⟨10, 10, 20, 20⟩]
            (([⟨0, 0, 10, 10⟩] : List (Box ℚ)).getD 0 default))) :=
  ⟨⟨by simp, by simp⟩,
   bboxes_training_pass1_spec [⟨0, 0, 10, 10⟩, ⟨10, 10, 20, 20⟩]
     [⟨0, 0, 10, 10⟩] 0 (by simp) (by simp)⟩

/-- C5: with a non-empty anchor set and an empty gold list,
`bboxes_training` raises (Pass 2 reduces `torch.max` over the empty gold
dimension of `iou_matrix[a, :]`); it does not return the all-background
result the specification promises. -/
theorem bboxes_training_empty_gold (anchors : List (Box ℚ))
    (gold_classes : List ℕ) (t : ℚ) (hA : anchors ≠ []) :
    bboxes_training anchors gold_classes [] t = none := by
  simp [bboxes_training, assignedGold_empty_gold anchors t hA]

/-- C5 witness: one anchor, empty gold list, threshold `1/2`. -/
theorem bboxes_training_empty_gold_witness :
    (([⟨0, 0, 10, 10⟩] : List (Box ℚ)) ≠ []) ∧
    bboxes_training [⟨0, 0, 10, 10⟩] [] [] (1 / 2) = none :=
  ⟨by simp, bboxes_training_empty_gold [⟨0, 0, 10, 10⟩] [] (1 / 2) (by simp)⟩

/-- C3: Pass 2 of `bboxes_training`: anchors assigned in Pass 1 are never
reassigned; an anchor left free by Pass 1 ends up assigned to the
smallest-index gold object maximising `iou_matrix[a, :]` iff that maximum
IoU is `>= iou_threshold` (literal `>=`), and stays background iff the
maximum is below the threshold. -/
theorem bboxes_training_pass2_spec (anchors gold_bboxes : List (Box ℚ))
    (t : ℚ) (i : ℕ) (hA : anchors ≠ []) (hG : gold_bboxes ≠ [])
    (hi : i < anchors.length) :
    ∃ asg1 final, pass1 anchors gold_bboxes = some asg1 ∧
      assignedGold anchors gold_bboxes t = some final ∧
      (∀ g, asg1.getD i none = some g → final.getD i none = some g) ∧
      (asg1.getD i none = none →
        (final.getD i none =
            some (argmaxList (gold_bboxes.map
              (fun gb => bboxes_iou (anchors.getD i default) gb))) ↔
          t ≤ maxList (gold_bboxes.map
            (fun gb => bboxes_iou (anchors.getD i default) gb))) ∧
        (final.getD i none = none ↔
          maxList (gold_bboxes.map
            (fun gb => bboxes_iou (anchors.getD i default) gb)) < t) ∧
        (gold_bboxes.map (fun gb => bboxes_iou (anchors.getD i default) gb)).getD
            (argmaxList (gold_bboxes.map
              (fun gb => bboxes_iou (anchors.getD i default) gb))) 0 =
          maxList (gold_bboxes.map
            (fun gb => bboxes_iou (anchors.getD i default) gb)) ∧
        ∀ j < argmaxList (gold_bboxes.map
            (fun gb => bboxes_iou (anchors.getD i default) gb)),
          (gold_bboxes.map
            (fun gb => bboxes_iou (anchors.getD i default) gb)).getD j 0 <
            maxList (gold_bboxes.map
              (fun gb => bboxes_iou (anchors.getD i default) gb))) := by
  obtain ⟨asg1, hp1, hlen1, -⟩ := pass1_getD anchors gold_bboxes hA
  obtain ⟨final, hR, hRlen, hget⟩ :=
    pass2Go_getD gold_bboxes t hG anchors asg1 hlen1
  have hfin : assignedGold anchors gold_bboxes t = some final := by
    simp [assignedGold, hp1, hR]
  refine ⟨asg1, final, hp1, hfin, ?_, ?_⟩
  · intro g hg
    have hc := hget i hi
    rw [hg] at hc
    simpa using hc
  · intro hnone
    have hc := hget i hi
    rw [hnone] at hc
    have hrow : gold_bboxes.map (fun gb => bboxes_iou (anchors.getD i default) gb)
        ≠ [] := by
      simpa using hG
    refine ⟨?_, ?_, getD_argmaxList _ hrow,
      fun j hj => getD_lt_of_lt_argmaxList _ j hj⟩
    · rw [hc]
      by_cases hle : t ≤ maxList (gold_bboxes.map
          (fun gb => bboxes_iou (anchors.getD i default) gb))
      · simp [pass2Result, hle]
      · simp [pass2Result, hle]
    · rw [hc]
      by_cases hle : t ≤ maxList (gold_bboxes.map
          (fun gb => bboxes_iou (anchors.getD i default) gb))
      · simp [pass2Result, hle]
      · simp [pass2Result, hle]

/-- C3 witness at two anchors (the second far away and left free by
Pass 1), one gold box, threshold `1/2`. -/
theorem bboxes_training_pass2_spec_witness :
    (([⟨0, 0, 10, 10⟩, ⟨100, 100, 110, 110⟩] : List (Box ℚ)) ≠ [] ∧
      ([⟨0, 0, 10, 10⟩] : List (Box ℚ)) ≠ [] ∧
      1 < ([⟨0, 0, 10, 10⟩, ⟨100, 100, 110, 110⟩] : List (Box ℚ)).length) ∧
    (∃ asg1 final,
      pass1 [⟨0, 0, 10, 10⟩, ⟨100, 100, 110, 110⟩] [⟨0, 0, 10, 10⟩] = some asg1 ∧
      assignedGold [⟨0, 0, 10, 10⟩, ⟨100, 100, 110, 110⟩] [⟨0, 0, 10, 10⟩]
        (1 / 2) = some final ∧
      (∀ g, asg1.getD 1 none = some g → final.getD 1 none = some g) ∧
      (asg1.getD 1 none = none →
        (final.getD 1 none =
            some (argmaxList (([⟨0, 0, 10, 10⟩] : List (Box ℚ)).map
              (fun gb => bboxes_iou
                (([⟨0, 0, 10, 10⟩, ⟨100, 100, 110, 110⟩] : List (Box ℚ)).getD 1
                  default) gb))) ↔
          1 / 2 ≤ maxList (([⟨0, 0, 10, 10⟩] : List (Box ℚ)).map
            (fun gb => bboxes_iou
              (([⟨0, 0, 10, 10⟩, ⟨100, 100, 110, 110⟩] : List (Box ℚ)).getD 1
                default) gb))) ∧
        (final.getD 1 none = none ↔
          maxList (([⟨0, 0, 10, 10⟩] : List (Box ℚ)).map
            (fun gb => bboxes_iou
              (([⟨0, 0, 10, 10⟩, ⟨100, 100, 110, 110⟩] : List (Box ℚ)).getD 1
                default) gb)) < 1 / 2) ∧
        (([⟨0, 0, 10, 10⟩] : List (Box ℚ)).map
            (fun gb => bboxes_iou
              (([⟨0, 0, 10, 10⟩, ⟨100, 100, 110, 110⟩] : List (Box ℚ)).getD 1
                default) gb)).getD
            (argmaxList (([⟨0, 0, 10, 10⟩] : List (Box ℚ)).map
              (fun gb => bboxes_iou
                (([⟨0, 0, 10, 10⟩, ⟨100, 100, 110, 110⟩] : List (Box ℚ)).getD 1
                  default) gb))) 0 =
          maxList (([⟨0, 0, 10, 10⟩] : List (Box ℚ)).map
            (fun gb => bboxes_iou
              (([⟨0, 0, 10, 10⟩, ⟨100, 100, 110, 110⟩] : List (Box ℚ)).getD 1
                default) gb)) ∧
        ∀ j < argmaxList (([⟨0, 0, 10, 10⟩] : List (Box ℚ)).map
            (fun gb => bboxes_iou
              (([⟨0, 0, 10, 10⟩, ⟨100, 100, 110, 110⟩] : List (Box ℚ)).getD 1
                default) gb)),
          (([⟨0, 0, 10, 10⟩] : List (Box ℚ)).map
            (fun gb => bboxes_iou
              (([⟨0, 0, 10, 10⟩, ⟨100, 100, 110, 110⟩] : List (Box ℚ)).getD 1
                default) gb)).getD j 0 <
            maxList (([⟨0, 0, 10, 10⟩] : List (Box ℚ)).map
              (fun gb => bboxes_iou
                (([⟨0, 0, 10, 10⟩, ⟨100, 100, 110, 110⟩] : List (Box ℚ)).getD 1
                  default) gb)))) :=
  ⟨⟨by simp, by simp, by simp⟩,
   bboxes_training_pass2_spec [⟨0, 0, 10, 10⟩, ⟨100, 100, 110, 110⟩]
     [⟨0, 0, 10, 10⟩] (1 / 2) 1 (by simp) (by simp) (by simp)⟩

theorem getD_map_zip {α β γ : Type} (f : α × β → γ) (l1 : List α) :
    ∀ (l2 : List β) (i : ℕ) (d1 : α) (d2 : β) (d : γ),
      i < l1.length → i < l2.length →
      ((l1.zip l2).map f).getD i d = f (l1.getD i d1, l2.getD i d2) := by
  induction l1 with
  | nil => intro l2 i d1 d2 d h1 _; simp at h1
  | cons x xs ih =>
    intro l2 i d1 d2 d h1 h2
    cases l2 with
    | nil => simp at h2
    | cons y ys =>
      cases i with
      | zero => rfl
      | succ j =>
        simpa [List.getD] using
          ih ys j d1 d2 d (by simpa using h1) (by simpa using h2)

/-- C4: materialization of `bboxes_training`: an anchor assigned (by either
pass) to gold index `g` gets class `1 + gold_classes[g]` and regression
target `bboxes_to_rcnn(anchor, gold_bboxes[g])`; an unassigned anchor gets
class `0` and regression target `(0,0,0,0)`. -/
theorem bboxes_training_materialization (anchors : List (Box ℚ))
    (gold_classes : List ℕ) (gold_bboxes : List (Box ℚ)) (t : ℚ)
    (assigned : List (Option ℕ)) (i : ℕ)
    (hasg : assignedGold anchors gold_bboxes t = some assigned)
    (hi : i < anchors.length) :
    ∃ ac ar, bboxes_training anchors gold_classes gold_bboxes t = some (ac, ar) ∧
      (∀ g, assigned.getD i none = some g →
        ac.getD i 0 = 1 + gold_classes.getD g 0 ∧
        ar.getD i default =
          bboxes_to_rcnn (boxToReal (anchors.getD i default))
            (boxToReal (gold_bboxes.getD g default))) ∧
      (assigned.getD i none = none →
        ac.getD i 0 = 0 ∧ ar.getD i default = ⟨0, 0, 0, 0⟩) := by
  have hlen : assigned.length = anchors.length :=
    assignedGold_length anchors gold_bboxes t assigned hasg
  have hi2 : i < assigned.length := by rw [hlen]; exact hi
  refine ⟨(anchors.zip assigned).map (fun p =>
      match p.2 with
      | some g => 1 + gold_classes.getD g 0
      | none => 0),
    (anchors.zip assigned).map (fun p =>
      match p.2 with
      | some g =>
        bboxes_to_rcnn (boxToReal p.1) (boxToReal (gold_bboxes.getD g default))
      | none => ⟨0, 0, 0, 0⟩), ?_, ?_, ?_⟩
  · simp [bboxes_training, hasg]
  · intro g hg
    constructor
    · rw [getD_map_zip _ anchors assigned i default none 0 hi hi2, hg]
    · rw [getD_map_zip _ anchors assigned i default none default hi hi2, hg]
  · intro hg
    constructor
    · rw [getD_map_zip _ anchors assigned i default none 0 hi hi2, hg]
    · rw [getD_map_zip _ anchors assigned i default none default hi hi2, hg]

/-- C4 witness: one anchor assigned to the single gold object of class 7. -/
theorem bboxes_training_materialization_witness :
    (assignedGold [⟨0, 0, 10, 10⟩] [⟨0, 0, 10, 10⟩] (1 / 2) = some [some 0] ∧
      0 < ([⟨0, 0, 10, 10⟩] : List (Box ℚ)).length) ∧
    (∃ ac ar,
      bboxes_training [⟨0, 0, 10, 10⟩] [7] [⟨0, 0, 10, 10⟩] (1 / 2) =
        some (ac, ar) ∧
      (∀ g, ([some 0] : List (Option ℕ)).getD 0 none = some g →
        ac.getD 0 0 = 1 + ([7] : List ℕ).getD g 0 ∧
        ar.getD 0 default =
          bboxes_to_rcnn (boxToReal (([⟨0, 0, 10, 10⟩] : List (Box ℚ)).getD 0 default))
            (boxToReal (([⟨0, 0, 10, 10⟩] : List (Box ℚ)).getD g default))) ∧
      (([some 0] : List (Option ℕ)).getD 0 none = none →
        ac.getD 0 0 = 0 ∧ ar.getD 0 default = ⟨0, 0, 0, 0⟩)) := by
  have hasg : assignedGold [⟨0, 0, 10, 10⟩] [⟨0, 0, 10, 10⟩] (1 / 2) =
      some [some 0] := by
    norm_num [assignedGold, pass1, pass1Go, pass2Go, bestAnchorIdx, argmaxList,
      maxList, bboxes_iou, bboxes_area, interBox, relu, max_def, min_def,
      List.getD]
  exact ⟨⟨hasg, by simp⟩,
    bboxes_training_materialization [⟨0, 0, 10, 10⟩] [7] [⟨0, 0, 10, 10⟩]
      (1 / 2) [some 0] 0 hasg (by simp)⟩

/-- C6 (amended): when two gold objects share the same best anchor, with
equal IoU at that anchor, Pass 1 assigns the contested anchor to gold 0;
gold 1 receives no Pass 1 assignment at all (it is NOT diverted to its
best anchor among the still-free ones). -/
theorem pass1_contested_anchor (anchors : List (Box ℚ)) (g0 g1 : Box ℚ)
    (hA : anchors ≠ [])
    (hsame : bestAnchorIdx anchors g1 = bestAnchorIdx anchors g0)
    (heq : bboxes_iou (anchors.getD (bestAnchorIdx anchors g0) default) g0 =
      bboxes_iou (anchors.getD (bestAnchorIdx anchors g0) default) g1) :
    ∃ assigned, pass1 anchors [g0, g1] = some assigned ∧
      assigned.getD (bestAnchorIdx anchors g0) none = some 0 ∧
      ∀ b, assigned.getD b none ≠ some 1 := by
  obtain ⟨R, hR, hRlen, hget⟩ := pass1_getD anchors [g0, g1] hA
  refine ⟨R, hR, ?_, ?_⟩
  · rw [hget]
    simp [firstGoldFor]
  · intro b hc
    rw [hget b] at hc
    obtain ⟨-, hbest, hall⟩ :=
      (firstGoldFor_eq_some anchors b [g0, g1] 1).mp hc
    have h0 : bestAnchorIdx anchors g0 ≠ b := by
      have := hall 0 (by omega)
      simpa [List.getD] using this
    have h1 : bestAnchorIdx anchors g1 = b := by
      simpa [List.getD] using hbest
    rw [hsame] at h1
    exact h0 h1

/-- C6 witness: two separated anchors, two identical gold boxes. -/
theorem pass1_contested_anchor_witness :
    (([⟨0, 0, 10, 10⟩, ⟨20, 20, 30, 30⟩] : List (Box ℚ)) ≠ [] ∧
      bestAnchorIdx [⟨0, 0, 10, 10⟩, ⟨20, 20, 30, 30⟩] (⟨0, 0, 10, 10⟩ : Box ℚ) =
        bestAnchorIdx [⟨0, 0, 10, 10⟩, ⟨20, 20, 30, 30⟩] (⟨0, 0, 10, 10⟩ : Box ℚ) ∧
      bboxes_iou (([⟨0, 0, 10, 10⟩, ⟨20, 20, 30, 30⟩] : List (Box ℚ)).getD
          (bestAnchorIdx [⟨0, 0, 10, 10⟩, ⟨20, 20, 30, 30⟩]
            (⟨0, 0, 10, 10⟩ : Box ℚ)) default) ⟨0, 0, 10, 10⟩ =
        bboxes_iou (([⟨0, 0, 10, 10⟩, ⟨20, 20, 30, 30⟩] : List (Box ℚ)).getD
          (bestAnchorIdx [⟨0, 0, 10, 10⟩, ⟨20, 20, 30, 30⟩]
            (⟨0, 0, 10, 10⟩ : Box ℚ)) default) ⟨0, 0, 10, 10⟩) ∧
    (∃ assigned,
      pass1 [⟨0, 0, 10, 10⟩, ⟨20, 20, 30, 30⟩] [⟨0, 0, 10, 10⟩, ⟨0, 0, 10, 10⟩] =
        some assigned ∧
      assigned.getD (bestAnchorIdx [⟨0, 0, 10, 10⟩, ⟨20, 20, 30, 30⟩]
        (⟨0, 0, 10, 10⟩ : Box ℚ)) none = some 0 ∧
      ∀ b, assigned.getD b none ≠ some 1) :=
  ⟨⟨by simp, rfl, rfl⟩,
   pass1_contested_anchor [⟨0, 0, 10, 10⟩, ⟨20, 20, 30, 30⟩]
     ⟨0, 0, 10, 10⟩ ⟨0, 0, 10, 10⟩ (by simp) rfl rfl⟩

/-- C6 counterexample: anchors `(0,0,10,10)`, `(20,20,30,30)` and two equal
gold boxes `(0,0,10,10)`: both golds achieve their maximal IoU at anchor 0
with equal value, yet Pass 1 returns `[some 0, none]` — gold 1 is left
unassigned instead of receiving its best still-free anchor (anchor 1). -/
theorem pass1_contested_anchor_cex :
    bestAnchorIdx [⟨0, 0, 10, 10⟩, ⟨20, 20, 30, 30⟩] (⟨0, 0, 10, 10⟩ : Box ℚ)
      = 0 ∧
    pass1 [⟨0, 0, 10, 10⟩, ⟨20, 20, 30, 30⟩] [⟨0, 0, 10, 10⟩, ⟨0, 0, 10, 10⟩] =
      some [some 0, none] ∧
    pass1 [⟨0, 0, 10, 10⟩, ⟨20, 20, 30, 30⟩] [⟨0, 0, 10, 10⟩, ⟨0, 0, 10, 10⟩] ≠
      some [some 0, some 1] := by
  have h : pass1 [⟨0, 0, 10, 10⟩, ⟨20, 20, 30, 30⟩]
      [⟨0, 0, 10, 10⟩, ⟨0, 0, 10, 10⟩] = some [some 0, none] := by
    norm_num [pass1, pass1Go, bestAnchorIdx, argmaxList, maxList, bboxes_iou,
      bboxes_area, interBox, relu, max_def, min_def, List.getD]
    decide
  refine ⟨?_, h, by rw [h]; simp⟩
  norm_num [bestAnchorIdx, argmaxList, maxList, bboxes_iou, bboxes_area,
    interBox, relu, max_def, min_def]

/-- C7: with `iou_threshold = 0`, well-formed anchors and a non-empty list
of positive-area gold boxes, no anchor remains background: each anchor's
best IoU is non-negative and the Pass 2 comparison is a literal `>=`. -/
theorem bboxes_training_threshold_zero (anchors gold_bboxes : List (Box ℚ))
    (hA : anchors ≠ []) (hG : gold_bboxes ≠ [])
    (hwf : ∀ a ∈ anchors, a.top ≤ a.bottom ∧ a.left ≤ a.right)
    (hpos : ∀ gb ∈ gold_bboxes, 0 < bboxes_area gb) :
    ∃ assigned, assignedGold anchors gold_bboxes 0 = some assigned ∧
      ∀ i < anchors.length, assigned.getD i none ≠ none := by
  obtain ⟨asg1, hp1, hlen1, -⟩ := pass1_getD anchors gold_bboxes hA
  obtain ⟨final, hR, hRlen, hget⟩ :=
    pass2Go_getD gold_bboxes 0 hG anchors asg1 hlen1
  refine ⟨final, by simp [assignedGold, hp1, hR], ?_⟩
  intro i hi
  have hc := hget i hi
  cases hx : asg1.getD i none with
  | some g =>
    rw [hx] at hc
    rw [hc]
    simp
  | none =>
    rw [hx] at hc
    rcases List.exists_cons_of_ne_nil hG with ⟨gb, gs, hGeq⟩
    have hlen0 : 0 < (gold_bboxes.map
        (fun x => bboxes_iou (anchors.getD i default) x)).length := by
      rw [hGeq]; simp
    have h00 : (gold_bboxes.map
        (fun x => bboxes_iou (anchors.getD i default) x)).getD 0 0 =
        bboxes_iou (anchors.getD i default) gb := by
      rw [hGeq]; rfl
    have hnn : 0 ≤ maxList (gold_bboxes.map
        (fun x => bboxes_iou (anchors.getD i default) x)) := by
      calc (0 : ℚ) ≤ bboxes_iou (anchors.getD i default) gb :=
            bboxes_iou_nonneg _ _
        _ = (gold_bboxes.map
              (fun x => bboxes_iou (anchors.getD i default) x)).getD 0 0 :=
            h00.symm
        _ ≤ maxList (gold_bboxes.map
              (fun x => bboxes_iou (anchors.getD i default) x)) :=
            getD_le_maxList _ 0 hlen0
    rw [hc, pass2Result, if_pos hnn]
    simp

/-- C7 witness: one well-formed anchor, one positive-area gold box. -/
theorem bboxes_training_threshold_zero_witness :
    (([⟨0, 0, 2, 2⟩] : List (Box ℚ)) ≠ [] ∧
      ([⟨1, 1, 3, 3⟩] : List (Box ℚ)) ≠ [] ∧
      (∀ a ∈ ([⟨0, 0, 2, 2⟩] : List (Box ℚ)),
        a.top ≤ a.bottom ∧ a.left ≤ a.right) ∧
      (∀ gb ∈ ([⟨1, 1, 3, 3⟩] : List (Box ℚ)), 0 < bboxes_area gb)) ∧
    (∃ assigned, assignedGold [⟨0, 0, 2, 2⟩] [⟨1, 1, 3, 3⟩] 0 = some assigned ∧
      ∀ i < ([⟨0, 0, 2, 2⟩] : List (Box ℚ)).length,
        assigned.getD i none ≠ none) :=
  ⟨⟨by simp, by simp,
    by intro a ha; simp at ha; subst ha; constructor <;> norm_num,
    by intro gb hgb; simp at hgb; subst hgb
       norm_num [bboxes_area, relu, max_def]⟩,
   bboxes_training_threshold_zero [⟨0, 0, 2, 2⟩] [⟨1, 1, 3, 3⟩]
     (by simp) (by simp)
     (by intro a ha; simp at ha; subst ha; constructor <;> norm_num)
     (by intro gb hgb; simp at hgb; subst hgb
         norm_num [bboxes_area, relu, max_def])⟩

/-- A raw tensor row (the trailing axis of a box tensor, of arbitrary
length): the four coordinate slices `[..., TOP]` .. `[..., RIGHT]` read the
first four entries. -/
def rowToBox (r : List ℚ) : Box ℚ :=
  ⟨r.getD 0 0, r.getD 1 0, r.getD 2 0, r.getD 3 0⟩

/-- `bboxes_training` as called on raw tensors: the source performs no
shape validation; indexing `[..., 3]` succeeds for every trailing
dimension of length ≥ 4 (extra trailing entries are silently ignored) and
raises an indexing error (`none`) only when a row is shorter than 4. -/
noncomputable def bboxes_training_tensor (anchors gold_bboxes : List (List ℚ))
    (gold_classes : List ℕ) (iou_threshold : ℚ) :
    Option (List ℕ × List Rcnn) :=
  if (∀ r ∈ anchors, 4 ≤ r.length) ∧ (∀ r ∈ gold_bboxes, 4 ≤ r.length) then
    bboxes_training (anchors.map rowToBox) gold_classes
      (gold_bboxes.map rowToBox) iou_threshold
  else none

/-- C8 (amended): `bboxes_training` performs no eager shape validation:
every call whose rows are at least 4 long — the trailing dimension need
not equal 4 — proceeds into the IoU/assignment/encoding computation on the
first four coordinates of each row; no ShapeMismatch error is raised. -/
theorem bboxes_training_no_shape_check (anchors gold_bboxes : List (List ℚ))
    (gold_classes : List ℕ) (t : ℚ)
    (h1 : ∀ r ∈ anchors, 4 ≤ r.length)
    (h2 : ∀ r ∈ gold_bboxes, 4 ≤ r.length) :
    bboxes_training_tensor anchors gold_bboxes gold_classes t =
      bboxes_training (anchors.map rowToBox) gold_classes
        (gold_bboxes.map rowToBox) t := by
  simp only [bboxes_training_tensor]
  rw [if_pos ⟨h1, h2⟩]

/-- C8 witness: anchor and gold rows of trailing dimension 5. -/
theorem bboxes_training_no_shape_check_witness :
    ((∀ r ∈ ([[0, 0, 10, 10, 99]] : List (List ℚ)), 4 ≤ r.length) ∧
      (∀ r ∈ ([[0, 0, 10, 10, 99]] : List (List ℚ)), 4 ≤ r.length)) ∧
    bboxes_training_tensor [[0, 0, 10, 10, 99]] [[0, 0, 10, 10, 99]] [3]
        (1 / 2) =
      bboxes_training (([[0, 0, 10, 10, 99]] : List (List ℚ)).map rowToBox) [3]
        (([[0, 0, 10, 10, 99]] : List (List ℚ)).map rowToBox) (1 / 2) :=
  ⟨⟨by simp, by simp⟩,
   bboxes_training_no_shape_check [[0, 0, 10, 10, 99]] [[0, 0, 10, 10, 99]]
     [3] (1 / 2) (by simp) (by simp)⟩

/-- C8 counterexample: a call whose box rows have trailing dimension 5
(not 4) does not fail at all — no ShapeMismatch, eager or otherwise: it
returns a result computed from the first four coordinates. -/
theorem bboxes_training_shape_cex :
    ([[0, 0, 10, 10, 99]] : List (List ℚ)).map List.length = [5] ∧
    (bboxes_training_tensor [[0, 0, 10, 10, 99]] [[0, 0, 10, 10, 99]] [3]
      (1 / 2)).isSome = true := by
  refine ⟨rfl, ?_⟩
  have hcond : (∀ r ∈ ([[0, 0, 10, 10, 99]] : List (List ℚ)), 4 ≤ r.length) ∧
      (∀ r ∈ ([[0, 0, 10, 10, 99]] : List (List ℚ)), 4 ≤ r.length) := by
    constructor <;> simp
  have hasg : assignedGold (([[0, 0, 10, 10, 99]] : List (List ℚ)).map rowToBox)
      (([[0, 0, 10, 10, 99]] : List (List ℚ)).map rowToBox) (1 / 2) =
      some [some 0] := by
    norm_num [assignedGold, pass1, pass1Go, pass2Go, bestAnchorIdx, argmaxList,
      maxList, bboxes_iou, bboxes_area, interBox, relu, max_def, min_def,
      List.getD, rowToBox]
  simp only [bboxes_training_tensor]
  rw [if_pos hcond]
  simp only [bboxes_training]
  rw [hasg]
  rfl
